import Mathlib

/-
Verification of the MedCo privacy-preserving aggregation core: a shallow
embedding of the medco protocols (deterministic switching, key switching,
private aggregation) and the medco service handlers, together with proofs
and refutations of the specified properties.

The elliptic-curve group is embedded as an arbitrary additive commutative
group G with integer scalars acting by zsmul; concrete evaluations use
G = Int (the generic cyclic group).
-/

/-- ElGamal ciphertext: ephemeral key point K and payload point C.
Modelled from the spec, section 3 (the structs package of services/medco
is not under src/): a pair (K, C) with K = kB and C = M + kY. -/
structure CipherText (G : Type) where
  K : G
  C : G
deriving DecidableEq

/-- A row of ciphertexts (services/medco structs CipherVector): an ordered
sequence of CipherText. -/
def CipherVector (G : Type) : Type := List (CipherText G)

instance (G : Type) [DecidableEq G] : DecidableEq (CipherVector G) := by
  unfold CipherVector
  infer_instance

/-- Component-wise ciphertext addition. Modelled from the spec, section 3:
(K, C) + (Kb, Cb) = (K + Kb, C + Cb). -/
def ctAdd {G : Type} [AddCommGroup G] (c d : CipherText G) : CipherText G :=
  ⟨c.K + d.K, c.C + d.C⟩

/-- Component-wise CipherVector addition (spec section 3 additive
homomorphism); pairs beyond the shorter vector are dropped, matching a
loop over the receiver. -/
def cvAdd {G : Type} [AddCommGroup G] (v w : CipherVector G) : CipherVector G :=
  List.zipWith ctAdd v w

/-- Probabilistic ElGamal encryption of a message point m under public key
y with ephemeral scalar k. Modelled from the spec, section 4.1:
Encrypt(Y, m) = (kB, m + kY). -/
def encryptPt {G : Type} [AddCommGroup G] (bp y m : G) (k : ℤ) : CipherText G :=
  ⟨k • bp, m + k • y⟩

/- ----------------------------------------------------------------- -/
/- Private Aggregation (src/protocols/medco/private_aggregate_protocol.go) -/
/- ----------------------------------------------------------------- -/

/-- A grouped contribution map, as held by a node of the Private
Aggregation protocol: a partial map from grouping attributes to cipher
vectors (Go map semantics: absent key versus present key with a possibly
nil vector). -/
def GroupMap (κ G : Type) : Type := κ → Option (CipherVector G)

/-- One iteration of the child-folding loop of ascendingAggregationPhase
(private_aggregate_protocol.go lines 116-126), stated extensionally per
group key. The Go loop binds aggr to the LOCAL map lookup
(localContribution)[group]; when the lookup succeeds it adds the local
vector to itself in place, and when it fails it inserts aggr, which is
then the zero value (a nil CipherVector). The child map values are never
read; only its key set is ranged over. -/
def processChild {κ G : Type} [AddCommGroup G] (m c : GroupMap κ G) : GroupMap κ G :=
  fun g =>
    match c g, m g with
    | some _, some v => some (cvAdd v v)
    | some _, none => some []
    | none, _ => m g

/-- The ascending aggregation fold over a list of received child
contributions (private_aggregate_protocol.go lines 115-127): children are
folded one after the other into the local contribution. -/
def ascendingFold {κ G : Type} [AddCommGroup G]
    (base : GroupMap κ G) (children : List (GroupMap κ G)) : GroupMap κ G :=
  children.foldl processChild base

/-- The fold step as the specification words it (spec section 4.5), for
comparison with processChild: for every (group, vector) in a child map,
if the group exists in the local map the entry becomes the CipherVector
sum of the local and the child vectors, otherwise the child vector is
inserted unchanged. -/
def specProcessChild {κ G : Type} [AddCommGroup G] (m c : GroupMap κ G) : GroupMap κ G :=
  fun g =>
    match c g, m g with
    | some w, some v => some (cvAdd v w)
    | some w, none => some w
    | none, _ => m g

/-- Concrete local contribution for the C1 evaluation: group 0 holds the
single ciphertext (1, 2). -/
def c1Local : GroupMap ℕ ℤ :=
  fun g => if g = 0 then some [⟨1, 2⟩] else none

/-- Concrete child contribution for the C1 evaluation: group 0 holds
(5, 7) and group 1 holds (9, 11). -/
def c1Child : GroupMap ℕ ℤ :=
  fun g => if g = 0 then some [⟨5, 7⟩] else if g = 1 then some [⟨9, 11⟩] else none

/-- Claim C1: at every non-leaf node, folding a child contribution should
add the child vector to an existing group entry and insert the child
vector for a new group. The code does neither: on the concrete input the
existing group 0 entry is doubled to [(2, 4)] (the child value (5, 7) is
ignored) and the new group 1 receives the nil vector instead of (9, 11),
diverging from the specification fold on both kinds of entry. -/
theorem C1_fold_ignores_child_vectors :
    processChild c1Local c1Child 0 = some [⟨2, 4⟩]
    ∧ processChild c1Local c1Child 1 = some []
    ∧ specProcessChild c1Local c1Child 0 = some [⟨6, 9⟩]
    ∧ specProcessChild c1Local c1Child 1 = some [⟨9, 11⟩]
    ∧ processChild c1Local c1Child 0 ≠ specProcessChild c1Local c1Child 0
    ∧ processChild c1Local c1Child 1 ≠ specProcessChild c1Local c1Child 1 := by
  refine ⟨rfl, rfl, rfl, rfl, ?_, ?_⟩ <;> decide

/- ----------------------------------------------------------------- -/
/- Key Switching (src/unnamed/part_000, KeySwitchingProtocol)         -/
/- ----------------------------------------------------------------- -/

/-- One partial key switch of a single ciphertext component. Modelled
from the spec, section 4.1 (CipherVector.SwitchForKey lives in the
structs package, which is not under src/): the component (K, C) becomes
(K + r * B, C - s * origK + r * Ynew), where origK is the original
ephemeral key recorded at protocol start. -/
def switchForKey {G : Type} [AddCommGroup G] (s : ℤ) (origK yNew : G) (r : ℤ)
    (bp : G) (c : CipherText G) : CipherText G :=
  ⟨c.K + r • bp, c.C - s • origK + r • yNew⟩

/-- One hop of the key switching ring on a whole row
(KeySwitchingProtocol.Dispatch, src/unnamed/part_000 lines 107-112): the
server applies its partial to every component, pairing each component
with the original ephemeral key carried in the message. -/
def ksHopVec {G : Type} [AddCommGroup G] (s r : ℤ) (bp yNew : G)
    (origKs : List G) (cv : CipherVector G) : CipherVector G :=
  List.zipWith (fun c ok => switchForKey s ok yNew r bp c) cv origKs

/-- The full key switching ring on a row: each of the N servers (the
initiator included, which applies its partial when the message returns,
src/unnamed/part_000 lines 103-116) contributes its pair of secrets
(s_i, r_i); the message forwards the same OriginalEphemeralKeys at every
hop (line 119), so origKs is constant along the fold. -/
def ksRingVec {G : Type} [AddCommGroup G] (hops : List (ℤ × ℤ)) (bp yNew : G)
    (origKs : List G) (cv : CipherVector G) : CipherVector G :=
  hops.foldl (fun v sr => ksHopVec sr.1 sr.2 bp yNew origKs v) cv

/-- The full ring on a single component with a fixed original ephemeral
key. -/
def ksCompRing {G : Type} [AddCommGroup G] (hops : List (ℤ × ℤ))
    (origK yNew bp : G) (c : CipherText G) : CipherText G :=
  hops.foldl (fun a sr => switchForKey sr.1 origK yNew sr.2 bp a) c

/-- Sum of the first components of the per-hop secret pairs (the private
keys s_i along the ring). -/
def scalarFstSum (hops : List (ℤ × ℤ)) : ℤ := (hops.map Prod.fst).sum

/-- Sum of the second components of the per-hop secret pairs (the fresh
randomness r_i along the ring). -/
def scalarSndSum (hops : List (ℤ × ℤ)) : ℤ := (hops.map Prod.snd).sum

@[simp] theorem scalarFstSum_nil : scalarFstSum [] = 0 := rfl

@[simp] theorem scalarFstSum_cons (p : ℤ × ℤ) (t : List (ℤ × ℤ)) :
    scalarFstSum (p :: t) = p.1 + scalarFstSum t := by
  simp [scalarFstSum]

@[simp] theorem scalarSndSum_nil : scalarSndSum [] = 0 := rfl

@[simp] theorem scalarSndSum_cons (p : ℤ × ℤ) (t : List (ℤ × ℤ)) :
    scalarSndSum (p :: t) = p.2 + scalarSndSum t := by
  simp [scalarSndSum]

/-- Closed form of the per-component key switching ring: the K field
accumulates (sum r_i) * B and the C field accumulates
- (sum s_i) * origK + (sum r_i) * Ynew. -/
theorem ksCompRing_closed {G : Type} [AddCommGroup G] (hops : List (ℤ × ℤ))
    (origK yNew bp : G) (c : CipherText G) :
    ksCompRing hops origK yNew bp c =
      ⟨c.K + scalarSndSum hops • bp,
       c.C - scalarFstSum hops • origK + scalarSndSum hops • yNew⟩ := by
  induction hops generalizing c with
  | nil =>
    simp [ksCompRing]
  | cons h t ih =>
    show ksCompRing t origK yNew bp (switchForKey h.1 origK yNew h.2 bp c) = _
    rw [ih]
    simp only [switchForKey, scalarFstSum_cons, scalarSndSum_cons, add_smul,
      CipherText.mk.injEq]
    constructor <;> abel

/-- The ring fold on a row built by mapping two functions over the same
underlying list acts component-wise. -/
theorem ksRingVec_on_maps {G ρ : Type} [AddCommGroup G] (hops : List (ℤ × ℤ))
    (bp yNew : G) (rows : List ρ) (φ : ρ → CipherText G) (ψ : ρ → G) :
    ksRingVec hops bp yNew (rows.map ψ) (rows.map φ) =
      rows.map (fun x => ksCompRing hops (ψ x) yNew bp (φ x)) := by
  induction hops generalizing φ with
  | nil =>
    simp [ksRingVec, ksCompRing]
  | cons h t ih =>
    show ksRingVec t bp yNew (rows.map ψ)
        (ksHopVec h.1 h.2 bp yNew (rows.map ψ) (rows.map φ)) = _
    have hstep : ksHopVec h.1 h.2 bp yNew (rows.map ψ) (rows.map φ) =
        rows.map fun x => switchForKey h.1 (ψ x) yNew h.2 bp (φ x) := by
      simp [ksHopVec, List.zipWith_map, List.zipWith_same]
    rw [hstep, ih]
    rfl

/-- Claim C2: after the key switching message has traversed all N servers
and returned to the initiator, every component of every row equals
((sum r_i) * B, M + (sum r_i) * Ytarget): a fresh probabilistic
encryption of the original plaintext M under the target key. A row is
given as a list of (plaintext point, ephemeral scalar) pairs; the input
target is the corresponding vector of valid encryptions under the
collective key (sum s_i) * B, the working copy starts with K zeroed and
C preserved (Start, src/unnamed/part_000 lines 83-92), and every hop uses
the original ephemeral key k * B carried in the message, never the
evolving K. -/
theorem C2_key_switching_ring_correct (G : Type) [AddCommGroup G]
    (hops : List (ℤ × ℤ)) (bp yTarget : G) (rows : List (G × ℤ)) :
    ksRingVec hops bp yTarget (rows.map fun mk => mk.2 • bp)
      (rows.map fun mk => ⟨(0 : G), mk.1 + mk.2 • (scalarFstSum hops • bp)⟩) =
      rows.map fun mk => ⟨scalarSndSum hops • bp, mk.1 + scalarSndSum hops • yTarget⟩ := by
  rw [ksRingVec_on_maps]
  apply List.map_congr_left
  intro mk _
  rw [ksCompRing_closed]
  simp only [CipherText.mk.injEq]
  constructor
  · abel
  · rw [smul_comm]
    abel

/- ----------------------------------------------------------------- -/
/- Deterministic Switching                                            -/
/- (src/protocols/medco/deterministic_switching_protocol.go)          -/
/- ----------------------------------------------------------------- -/

/-- One partial deterministic switch of a component. Modelled from the
spec, section 4.1 (CipherVector.SwitchToDeterministic lives in the structs
package, which is not under src/): (K, C) becomes
(K, C - s * K + ph * K), where s is the server private key and ph its
per-survey secret scalar. -/
def switchToDeterministic {G : Type} [AddCommGroup G] (s ph : ℤ)
    (c : CipherText G) : CipherText G :=
  ⟨c.K, c.C - s • c.K + ph • c.K⟩

/-- The full deterministic switching ring on one component
(DeterministicSwitchingProtocol.Dispatch lines 84-87 applied by each of
the N servers, the initiator included): each hop contributes its pair
(s_i, ph_i). -/
def detCompRing {G : Type} [AddCommGroup G] (hops : List (ℤ × ℤ))
    (c : CipherText G) : CipherText G :=
  hops.foldl (fun a sp => switchToDeterministic sp.1 sp.2 a) c

/-- Closed form of the deterministic switching ring: K is untouched and C
accumulates - (sum s_i) * K + (sum ph_i) * K. -/
theorem detCompRing_closed {G : Type} [AddCommGroup G] (hops : List (ℤ × ℤ))
    (c : CipherText G) :
    detCompRing hops c =
      ⟨c.K, c.C - scalarFstSum hops • c.K + scalarSndSum hops • c.K⟩ := by
  induction hops generalizing c with
  | nil =>
    simp [detCompRing]
  | cons h t ih =>
    show detCompRing t (switchToDeterministic h.1 h.2 c) = _
    rw [ih]
    simp only [switchToDeterministic, scalarFstSum_cons, scalarSndSum_cons,
      add_smul, CipherText.mk.injEq, true_and]
    abel

/-- Claim C5, counterexample: two encryptions of the same plaintext 0
under the collective key of the single-server survey hops = [(3, 5)]
(collective key 3 * B with B = 1 over the integer model), made with
different ephemeral scalars 1 and 2, come out of the full ring with
different C components (5 versus 10), so the deterministic label is not a
function of the plaintext alone even within one survey. -/
theorem C5_counterexample :
    (detCompRing [((3 : ℤ), 5)] (encryptPt (1 : ℤ) 3 0 1)).C ≠
      (detCompRing [((3 : ℤ), 5)] (encryptPt (1 : ℤ) 3 0 2)).C := by
  decide

/-- Claim C5 as amended: the deterministic label of a component is
M + (sum ph_i) * K, a function of the plaintext and of the ciphertext
ephemeral key K, not of the plaintext alone. Concretely: (first) the ring
output on a valid encryption of M with ephemeral scalar k under the
collective key keeps K and maps C to M + (sum ph_i) * (k * B), so equal
plaintext plus equal ephemeral key give equal labels within a survey;
(second) over the integer model, two surveys whose per-survey scalar sums
differ give different labels to the same plaintext and same nonzero
ephemeral scalar. -/
theorem C5_amended_label_formula :
    (∀ (G : Type) [AddCommGroup G] (hops : List (ℤ × ℤ)) (bp m : G) (k : ℤ),
      detCompRing hops (encryptPt bp (scalarFstSum hops • bp) m k) =
        ⟨k • bp, m + scalarSndSum hops • (k • bp)⟩)
    ∧ (∀ (hops hops2 : List (ℤ × ℤ)) (m k : ℤ),
      scalarSndSum hops ≠ scalarSndSum hops2 → k ≠ 0 →
      (detCompRing hops (encryptPt (1 : ℤ) (scalarFstSum hops • 1) m k)).C ≠
        (detCompRing hops2 (encryptPt (1 : ℤ) (scalarFstSum hops2 • 1) m k)).C) := by
  constructor
  · intro G _ hops bp m k
    rw [detCompRing_closed]
    simp only [encryptPt, CipherText.mk.injEq, true_and]
    rw [smul_comm (scalarFstSum hops) k bp]
    abel
  · intro hops hops2 m k hph hk
    rw [detCompRing_closed, detCompRing_closed]
    simp only [encryptPt, smul_eq_mul]
    intro heq
    apply hph
    have hcancel : scalarSndSum hops * k = scalarSndSum hops2 * k := by linarith
    exact mul_right_cancel₀ hk hcancel

/-- Witness for the amended C5: the survey sums of [(0, 1)] and [(0, 2)]
differ, the ephemeral scalar 1 is nonzero, and the two labels of the
plaintext 0 indeed differ, by the amended theorem. -/
theorem C5_amended_witness :
    scalarSndSum [((0 : ℤ), 1)] ≠ scalarSndSum [((0 : ℤ), 2)]
    ∧ (1 : ℤ) ≠ 0
    ∧ (detCompRing [((0 : ℤ), 1)]
        (encryptPt (1 : ℤ) (scalarFstSum [((0 : ℤ), 1)] • 1) 0 1)).C ≠
      (detCompRing [((0 : ℤ), 2)]
        (encryptPt (1 : ℤ) (scalarFstSum [((0 : ℤ), 2)] • 1) 0 1)).C :=
  ⟨by decide, by decide,
    C5_amended_label_formula.2 [((0 : ℤ), 1)] [((0 : ℤ), 2)] 0 1
      (by decide) (by decide)⟩

/- ----------------------------------------------------------------- -/
/- Go-level runtime behaviour of Start and of the ring endpoints      -/
/- ----------------------------------------------------------------- -/

/-- Go slice element assignment: writing index i of a slice of length
len succeeds only when i < len; otherwise the program panics, modelled
as none. A nil slice has length 0, so any write into it panics. -/
def listSetAt {α : Type} (l : List α) (i : ℕ) (x : α) : Option (List α) :=
  if i < l.length then some (l.set i x) else none

/-- The sequence of writes originalEphemKeys[k][i] = c.K performed by
KeySwitchingProtocol.Start (src/unnamed/part_000 line 89) for one row:
the map entry was never allocated, so every write starts from the nil
slice and the first component already panics. -/
def writeEphemKeysGo {G : Type} (cv : CipherVector G) : Option (List G) :=
  cv.enum.foldl (fun acc ic => acc.bind fun row => listSetAt row ic.1 ic.2.K) (some [])

/-- The working copy built by KeySwitchingProtocol.Start for one row
(src/unnamed/part_000 lines 86-88): K cleared to the group identity via
InitCipherVector (spec section 4.4) and C copied from the input. -/
def cvInitRow {G : Type} [AddCommGroup G] (cv : CipherVector G) : CipherVector G :=
  cv.map fun c => ⟨0, c.C⟩

/-- The row-processing loop of KeySwitchingProtocol.Start
(src/unnamed/part_000 lines 85-92): for each row build the zeroed working
copy and record the original ephemeral keys; the recording panics (none)
as soon as any row is non-empty. -/
def buildInitRows {G : Type} [AddCommGroup G]
    (rows : List (ℕ × CipherVector G)) :
    Option (List (ℕ × CipherVector G × List G)) :=
  match rows with
  | [] => some []
  | kv :: rest =>
    match writeEphemKeysGo kv.2, buildInitRows rest with
    | some eks, some rs => some ((kv.1, cvInitRow kv.2, eks) :: rs)
    | _, _ => none

/-- Outcome of KeySwitchingProtocol.Start: a synchronous configuration
error, a runtime panic (crash), or the initial ring message handed to
sendToNext. -/
inductive KSStartOutcome (G : Type) where
  | confErr (msg : String)
  | crash
  | sent (data : List (ℕ × CipherVector G × List G)) (newKey : G)
deriving DecidableEq

/-- KeySwitchingProtocol.Start (src/unnamed/part_000 lines 71-100): nil
target and nil new key fail synchronously, in that order; otherwise the
rows are processed, panicking on the first non-empty cipher vector. -/
def ksStartGo {G : Type} [AddCommGroup G]
    (target : Option (List (ℕ × CipherVector G))) (newKey : Option G) :
    KSStartOutcome G :=
  match target with
  | none => KSStartOutcome.confErr "No ciphertext given as key switching target."
  | some rows =>
    match newKey with
    | none => KSStartOutcome.confErr "No new public key to be switched on provided."
    | some y =>
      match buildInitRows rows with
      | none => KSStartOutcome.crash
      | some built => KSStartOutcome.sent built y

/-- Claim C3: Start on a non-nil target whose vectors are non-empty is
claimed to succeed and send the initial message; on the concrete target
with one row holding the single ciphertext (1, 2) and new key 3 the code
instead panics, because line 89 indexes into the never-allocated nil
slice originalEphemKeys[k]. With an empty vector the write loop never
runs and Start does send. -/
theorem C3_key_switching_start_crashes :
    ksStartGo (some [((0 : ℕ), [⟨(1 : ℤ), 2⟩])]) (some 3) = KSStartOutcome.crash
    ∧ ksStartGo (some [((0 : ℕ), ([] : CipherVector ℤ))]) (some 3) =
        KSStartOutcome.sent [((0 : ℕ), [], [])] 3 := by
  constructor <;> rfl

/-- The sequence of writes deterministicSwitchedData[k][i] performed by
the initiator of the deterministic switching ring
(deterministic_switching_protocol.go lines 92-97) for one row: the map
entry deterministicSwitchedData[k] is never allocated, so every write
starts from the nil DeterministCipherVector and the first component
panics. -/
def writeDetRowGo {G : Type} (cv : CipherVector G) : Option (List G) :=
  cv.enum.foldl (fun acc ic => acc.bind fun row => listSetAt row ic.1 ic.2.C) (some [])

/-- The delivery map built by the initiator at ring closure
(deterministic_switching_protocol.go lines 92-98), row by row; none
models the runtime panic. -/
def detRootDeliverGo {G : Type} (data : List (ℕ × CipherVector G)) :
    Option (List (ℕ × List G)) :=
  match data with
  | [] => some []
  | kv :: rest =>
    match writeDetRowGo kv.2, detRootDeliverGo rest with
    | some row, some rs => some ((kv.1, row) :: rs)
    | _, _ => none

/-- The root branch of DeterministicSwitchingProtocol.Dispatch
(lines 84-98): the initiator applies its own partial switch to every row
and then builds the DeterministCipherVector delivery map. -/
def detRootDispatchGo {G : Type} [AddCommGroup G] (s ph : ℤ)
    (data : List (ℕ × CipherVector G)) : Option (List (ℕ × List G)) :=
  detRootDeliverGo (data.map fun kv => (kv.1, kv.2.map (switchToDeterministic s ph)))

/-- The delivery map as the specification words it (spec section 4.2):
for every row keep the C components and discard the K components. -/
def specRootDeliver {G : Type} (data : List (ℕ × CipherVector G)) :
    List (ℕ × List G) :=
  data.map fun kv => (kv.1, kv.2.map CipherText.C)

/-- Claim C4: at ring closure the initiator is claimed to deliver, for
each rowID, the DeterministicCipherVector of the C components of the
switched ciphertexts. On the concrete received map with one row holding
the ciphertext (5, 9) and initiator secrets s = 2, ph = 3, the code
panics (none) writing into the never-allocated nil vector, whereas the
extraction the claim describes is the well-defined map row 0 to [14]. -/
theorem C4_root_delivery_crashes :
    detRootDispatchGo 2 3 [((0 : ℕ), [⟨(5 : ℤ), 9⟩])] = none
    ∧ specRootDeliver
        ([((0 : ℕ), [⟨(5 : ℤ), 9⟩])].map fun kv =>
          (kv.1, kv.2.map (switchToDeterministic 2 3))) = [(0, [14])] := by
  constructor
  · rfl
  · decide

/-- sendToNext of the ring protocols
(deterministic_switching_protocol.go lines 109-114 and
src/unnamed/part_000 lines 127-132): the send error is only logged and
then discarded; nothing is returned to the caller. -/
def sendToNextGo (sendResult : Except String Unit) : Unit :=
  match sendResult with
  | Except.ok _ => ()
  | Except.error _ => ()

/-- DeterministicSwitchingProtocol.Start (lines 66-77): nil target fails
synchronously; otherwise the target is handed to sendToNext, whose
outcome is discarded, and Start returns nil. -/
def detStartRunGo {G : Type} [AddCommGroup G]
    (target : Option (List (ℕ × CipherVector G)))
    (sendResult : Except String Unit) : Except String Unit :=
  match target with
  | none => Except.error "No map given as deterministic switching target."
  | some _ =>
    let _u := sendToNextGo sendResult
    Except.ok ()

/-- The result of a non-root hop of the deterministic switching ring:
the message handed to the network layer and the Go return value of
Dispatch. -/
structure RingDispatchRun (G : Type) where
  forwarded : List (ℕ × CipherVector G)
  ret : Option String

/-- The non-root branch of DeterministicSwitchingProtocol.Dispatch
(lines 80-105): switch every row, hand the result to sendToNext (whose
outcome is discarded), and return nil. -/
def detDispatchRunGo {G : Type} [AddCommGroup G] (s ph : ℤ)
    (data : List (ℕ × CipherVector G))
    (sendResult : Except String Unit) : RingDispatchRun G :=
  let switched := data.map fun kv => (kv.1, kv.2.map (switchToDeterministic s ph))
  let _u := sendToNextGo sendResult
  { forwarded := switched, ret := none }

/-- PrivateAggregateProtocol.Start
(private_aggregate_protocol.go lines 69-79): nil data reference fails
synchronously; otherwise the announcement is sent to the children (the
send result is not even captured) and Start returns nil. -/
def aggStartGo {κ G : Type} [AddCommGroup G]
    (dataRef : Option (GroupMap κ G)) : Except String Unit :=
  match dataRef with
  | none => Except.error "No data reference provided for aggregation."
  | some _ => Except.ok ()

/-- Claim C9, counterexample: on a concrete non-nil target, Start of the
deterministic switching ring returns nil (success) even though the send
to the next node failed, so a failed send is not fatal to the protocol
instance, contradicting the claim. -/
theorem C9_counterexample :
    detStartRunGo (some [((0 : ℕ), [⟨(1 : ℤ), 2⟩])])
      (Except.error "send failed") = Except.ok () := rfl

/-- Claim C9 as amended: a failed send is logged and discarded.
sendToNext swallows the error, Start and the non-root Dispatch of the
ring behave identically whether or not the send succeeded, and both
return nil: the instance continues as if the send had succeeded. -/
theorem C9_amended_send_failure_swallowed :
    (∀ (G : Type) [AddCommGroup G] (target : Option (List (ℕ × CipherVector G)))
      (e1 e2 : Except String Unit),
      detStartRunGo target e1 = detStartRunGo target e2)
    ∧ (∀ (G : Type) [AddCommGroup G] (s ph : ℤ)
      (data : List (ℕ × CipherVector G)) (e1 e2 : Except String Unit),
      detDispatchRunGo s ph data e1 = detDispatchRunGo s ph data e2)
    ∧ (∀ (G : Type) [AddCommGroup G] (target : List (ℕ × CipherVector G))
      (e : Except String Unit),
      detStartRunGo (some target) e = Except.ok ())
    ∧ (∀ (G : Type) [AddCommGroup G] (s ph : ℤ)
      (data : List (ℕ × CipherVector G)) (e : Except String Unit),
      (detDispatchRunGo s ph data e).ret = none) := by
  refine ⟨?_, ?_, ?_, ?_⟩
  · intro G _ target e1 e2
    cases target <;> rfl
  · intro G _ s ph data e1 e2
    rfl
  · intro G _ target e
    rfl
  · intro G _ s ph data e
    rfl

/-- A fold of option-bind steps starting from none stays none. -/
theorem foldl_bind_none {α β : Type} (g : β → α → Option α) (l : List β) :
    l.foldl (fun acc x => acc.bind fun a => g x a) none = none := by
  induction l with
  | nil => rfl
  | cons h t ih => simpa using ih

/-- Recording the original ephemeral keys of a non-empty row always
panics: the first write already indexes the nil slice. -/
theorem writeEphemKeysGo_cons {G : Type} (c : CipherText G) (t : CipherVector G) :
    writeEphemKeysGo (c :: t) = none := by
  show ((c :: t).enum.foldl
    (fun acc ic => acc.bind fun row => listSetAt row ic.1 ic.2.K) (some [])) = none
  rw [List.enum_cons, List.foldl_cons]
  exact foldl_bind_none _ _

/-- One step of the Start row loop panics exactly when the current row is
non-empty or a later row panics. -/
theorem buildInitRows_cons_none_iff {G : Type} [AddCommGroup G]
    (kv : ℕ × CipherVector G) (rest : List (ℕ × CipherVector G)) :
    buildInitRows (kv :: rest) = none ↔ kv.2 ≠ [] ∨ buildInitRows rest = none := by
  cases hcv : kv.2 with
  | nil =>
    have hw : writeEphemKeysGo ([] : CipherVector G) = some [] := rfl
    cases hrest : buildInitRows rest <;> simp [buildInitRows, hcv, hw, hrest]
  | cons c tl =>
    have hw : writeEphemKeysGo (c :: tl) = none := writeEphemKeysGo_cons c tl
    cases hrest : buildInitRows rest <;> simp [buildInitRows, hcv, hw, hrest]

/-- The Start row loop panics exactly when some row has a non-empty
cipher vector. -/
theorem buildInitRows_none_iff {G : Type} [AddCommGroup G]
    (rows : List (ℕ × CipherVector G)) :
    buildInitRows rows = none ↔ ∃ kv ∈ rows, kv.2 ≠ [] := by
  induction rows with
  | nil => simp [buildInitRows]
  | cons kv rest ih =>
    rw [buildInitRows_cons_none_iff, ih]
    simp

/-- Claim C8: Start of each protocol is claimed to fail synchronously
exactly on a missing configuration element and to succeed otherwise. The
missing-target and missing-key errors are as claimed (first four
conjuncts and the two key switching error cases), no Start ever inspects
the roster, but the final success half fails: with both configuration
elements present, key switching Start panics precisely when some row has
a non-empty cipher vector (conjunct seven), in particular on the
concrete valid target holding the single ciphertext (1, 2) with new key
3 (conjunct eight). -/
theorem C8_start_error_characterization :
    (∀ e, detStartRunGo (G := ℤ) none e =
      Except.error "No map given as deterministic switching target.")
    ∧ (∀ t e, detStartRunGo (G := ℤ) (some t) e = Except.ok ())
    ∧ (aggStartGo (G := ℤ) (κ := ℕ) none =
      Except.error "No data reference provided for aggregation.")
    ∧ (∀ d, aggStartGo (G := ℤ) (κ := ℕ) (some d) = Except.ok ())
    ∧ (∀ yk, ksStartGo (G := ℤ) none yk =
      KSStartOutcome.confErr "No ciphertext given as key switching target.")
    ∧ (∀ rows, ksStartGo (G := ℤ) (some rows) none =
      KSStartOutcome.confErr "No new public key to be switched on provided.")
    ∧ (∀ (rows : List (ℕ × CipherVector ℤ)) (y : ℤ),
      ksStartGo (some rows) (some y) = KSStartOutcome.crash ↔ ∃ kv ∈ rows, kv.2 ≠ [])
    ∧ ksStartGo (some [((0 : ℕ), [⟨(1 : ℤ), 2⟩])]) (some 3) = KSStartOutcome.crash := by
  refine ⟨fun e => rfl, fun t e => rfl, rfl, fun d => rfl, fun yk => rfl,
    fun rows => rfl, ?_, rfl⟩
  intro rows y
  rw [← buildInitRows_none_iff]
  cases hb : buildInitRows rows with
  | none => simp [ksStartGo, hb]
  | some rs => simp [ksStartGo, hb]

/-- Folding two child contributions commutes: per group key, each child
either doubles the present entry or inserts the empty vector, and these
effects are order-independent. -/
theorem processChild_comm {κ G : Type} [AddCommGroup G]
    (m c1 c2 : GroupMap κ G) :
    processChild (processChild m c1) c2 = processChild (processChild m c2) c1 := by
  funext g
  unfold processChild
  cases c1 g <;> cases c2 g <;> cases m g <;> rfl

/-- Claim C6: the ascending aggregation fold delivers the same map for
any permutation of the received child contributions, at every node and in
particular at the root. -/
theorem C6_aggregation_order_independent {κ G : Type} [AddCommGroup G]
    (base : GroupMap κ G) (l1 l2 : List (GroupMap κ G)) (h : l1.Perm l2) :
    ascendingFold base l1 = ascendingFold base l2 :=
  h.foldl_eq' (fun x _ y _ z => processChild_comm z x y) base

/-- First concrete child map for the C6 witness: group 0 holds the
ciphertext (1, 1). -/
def c6m1 : GroupMap ℕ ℤ :=
  fun g => if g = 0 then some [⟨1, 1⟩] else none

/-- Second concrete child map for the C6 witness: group 1 holds the
ciphertext (2, 3). -/
def c6m2 : GroupMap ℕ ℤ :=
  fun g => if g = 1 then some [⟨2, 3⟩] else none

/-- Concrete local contribution for the C6 witness: group 0 holds the
ciphertext (4, 5). -/
def c6base : GroupMap ℕ ℤ :=
  fun g => if g = 0 then some [⟨4, 5⟩] else none

/-- Witness for C6: the two-element child list and its transposition are
a permutation, and the fold of the concrete local contribution over them
is the same, by the theorem. -/
theorem C6_aggregation_order_independent_witness :
    ([c6m1, c6m2] : List (GroupMap ℕ ℤ)).Perm [c6m2, c6m1]
    ∧ ascendingFold c6base [c6m1, c6m2] = ascendingFold c6base [c6m2, c6m1] :=
  ⟨List.Perm.swap c6m2 c6m1 [],
    C6_aggregation_order_independent c6base [c6m1, c6m2] [c6m2, c6m1]
      (List.Perm.swap c6m2 c6m1 [])⟩

/- ----------------------------------------------------------------- -/
/- MedCo service (src/services/medco/medco.go)                        -/
/- ----------------------------------------------------------------- -/

/-- The staged survey store. Modelled from the spec, section 4.6 (the
store package of services/medco is not under src/): for the handler
claims only the collected rows and the deliverable results matter; a row
is a pair of a grouping CipherVector and an aggregating CipherVector. -/
structure SurveyStore (G : Type) where
  collectedRows : List (CipherVector G × CipherVector G)
  deliverableResults : List (CipherVector G × CipherVector G)
deriving DecidableEq

/-- store.NewSurvey: a fresh empty survey store. Modelled from the spec,
section 4.6 (the store package is not under src/). -/
def newSurveyStore (G : Type) : SurveyStore G := ⟨[], []⟩

/-- store.PollDeliverableResults (spec section 4.6): the queue of
querier-ready results. -/
def pollDeliverableResults {G : Type} (st : SurveyStore G) :
    List (CipherVector G × CipherVector G) :=
  st.deliverableResults

/-- The per-server MedcoService state (medco.go lines 28-37): roster,
derived tree, survey store and per-survey secret scalar. -/
structure MedcoState (G : Type) where
  entityList : List ℕ
  tree : List ℕ
  store : SurveyStore G
  surveyPHKey : ℤ

/-- EntityList.GenerateBinaryTree (the sda library is not under src/):
the tree is a deterministic function of the roster; its shape is
irrelevant to the handler claims, so it is modelled by the roster
itself. -/
def generateBinaryTree (roster : List ℕ) : List ℕ := roster

/-- HandleSurveyCreationQuery (medco.go lines 50-71): unconditionally
overwrite the roster, the derived tree, the store (a fresh NewSurvey)
and the per-survey secret scalar, then answer ServiceResponse(1) with a
nil error; the previous state is never consulted. The freshly picked
secret is passed as an argument. -/
def handleSurveyCreationQueryGo {G : Type} (prev : MedcoState G)
    (roster : List ℕ) (freshSecret : ℤ) :
    MedcoState G × (Int × Option String) :=
  ({ entityList := roster
     tree := generateBinaryTree roster
     store := newSurveyStore G
     surveyPHKey := freshSecret }, (1, none))

/-- HandleSurveyResultsQuery (medco.go lines 85-98): the three pipeline
phases are run in order but their error results are discarded (the calls
on lines 90-94 ignore the returned error), and the handler always
answers the deliverable results of the store with a nil error. -/
def handleSurveyResultsQueryGo {G : Type}
    (flushCollected flushGrouped flushAggregated : Except String Unit)
    (st : SurveyStore G) :
    List (CipherVector G × CipherVector G) × Option String :=
  let _r1 := flushCollected
  let _r2 := flushGrouped
  let _r3 := flushAggregated
  (pollDeliverableResults st, none)

/-- Claim C10: every survey creation replaces the whole survey state.
The post-state is independent of the previous state, the store is the
fresh empty store (so all collected rows and results of a previous survey
are discarded), and the response is ServiceResponse(1) with no error or
warning. -/
theorem C10_survey_creation_replaces_state {G : Type}
    (s1 s2 : MedcoState G) (roster : List ℕ) (freshSecret : ℤ) :
    handleSurveyCreationQueryGo s1 roster freshSecret =
      handleSurveyCreationQueryGo s2 roster freshSecret
    ∧ (handleSurveyCreationQueryGo s1 roster freshSecret).1.store = newSurveyStore G
    ∧ (handleSurveyCreationQueryGo s1 roster freshSecret).1.store.collectedRows = []
    ∧ (handleSurveyCreationQueryGo s1 roster freshSecret).1.surveyPHKey = freshSecret
    ∧ (handleSurveyCreationQueryGo s1 roster freshSecret).2 = (1, none) :=
  ⟨rfl, rfl, rfl, rfl, rfl⟩

/-- Concrete store for the C7 counterexample: one deliverable result. -/
def c7Store : SurveyStore ℤ := ⟨[], [([⟨1, 2⟩], [⟨3, 4⟩])]⟩

/-- Claim C7, counterexample: with the first pipeline phase failing, the
handler still answers the full deliverable result set with a nil error,
so a phase failure is not surfaced as a survey-level error. -/
theorem C7_counterexample :
    handleSurveyResultsQueryGo (Except.error "pipeline phase failed")
      (Except.ok ()) (Except.ok ()) c7Store = ([([⟨1, 2⟩], [⟨3, 4⟩])], none) := rfl

/-- Claim C7 as amended: HandleSurveyResultsQuery ignores the outcome of
the three pipeline phases: whatever they return, the answer is the
deliverable results of the store with a nil error, identical to a run in
which every phase succeeded. -/
theorem C7_amended_handler_ignores_errors {G : Type}
    (f1 f2 f3 : Except String Unit) (st : SurveyStore G) :
    handleSurveyResultsQueryGo f1 f2 f3 st = (pollDeliverableResults st, none)
    ∧ handleSurveyResultsQueryGo f1 f2 f3 st =
      handleSurveyResultsQueryGo (Except.ok ()) (Except.ok ()) (Except.ok ()) st :=
  ⟨rfl, rfl⟩
